import Mathlib

/-!
Verification of the Rancher Desktop settings module (`settings.ts`): the
settings migration engine (`updateSettings` / `updateTable`), the command-line
override engine (`updateFromCommandLine` / `getUpdatableNode`), the deployment
profile reader (`readDeploymentProfiles` / `readProfileFiles` /
`readRegistryUsingSchema` / `validateDeploymentProfile`) and the settings store
(`load` / `loadFromDisk` / `save` / `firstRunDialogNeeded`).

The code is dynamically typed JavaScript working on parsed JSON / plist /
registry data, so we first build a shallow embedding of the JavaScript values
and primitive operations the module uses.  Modelling conventions:

* `JsValue` covers `null`, booleans, numbers, strings, and objects.  A
  JavaScript array is an exotic object, so it is modelled as an object with
  `isArr := true` whose element list is stored as fields keyed by the decimal
  index strings "0", "1", ...; named properties that lodash merges may attach
  to an array are then ordinary fields.  `typeof` of both arrays and plain
  objects is "object" and `Array.isArray` is the flag, exactly as in JS.
  Model invariant (holds for every value built by JSON parsing and by the
  operations here): index fields of an array are dense and in order, so the
  `length` property is the number of index-shaped keys.
* JS numbers are modelled as `Int`.  All numeric constants in the module are
  integers; float-specific behaviour is out of the modelled scope.
* `undefined` is not a `JsValue`; an absent value is `Option.none` at use
  sites (property reads return `Option JsValue`).  The one observable
  difference — an object literal field whose value expression evaluates to
  `undefined` produces a present-with-undefined property in JS and an absent
  field here — is noted where it occurs (migration step 4); downstream the
  two behave identically because `_.defaultsDeep` fills a property exactly
  when its value is `undefined`.
* Exceptions (`TypeError` from member access on `null`/`undefined`, strict
  mode assignment errors, explicit `throw`) are `Except Unit` /
  `Except LoadErr`; the module never inspects foreign exception contents
  except for `err.code === 'ENOENT'`, which `LoadErr` distinguishes.
* Property lookup is own-property only; prototype-chain hits (e.g.
  `'toString' in obj`) are not modelled.  In the validation code this is
  unobservable (an inherited hit has `typeof` "function", which never equals
  the `typeof` of a data value, so the key is deleted either way).
* File and registry contents are abstracted to their parse outcome
  (`FileOutcome`, `RegKeyModel`); paths, parsers (`JSON` vs `plist`) and the
  logging sink are irrelevant to the verified properties.
-/

/-- A JavaScript value as used by the settings module (parsed JSON, plist or
registry data).  Arrays are objects with `isArr := true` and decimal-index
field keys; see the module conventions above. -/
inductive JsValue where
  | null
  | bool (b : Bool)
  | num (n : Int)
  | str (s : String)
  | obj (isArr : Bool) (fields : List (String × JsValue))

namespace JsValue

/-- Build the model of a JS array literal from its element list. -/
def jarr (xs : List JsValue) : JsValue :=
  .obj true (xs.enum.map fun p => (toString p.1, p.2))

/-- JS `typeof v` (note `typeof null === 'object'` and arrays are objects). -/
def jsTypeof : JsValue → String
  | .null => "object"
  | .bool _ => "boolean"
  | .num _ => "number"
  | .str _ => "string"
  | .obj _ _ => "object"

/-- JS `Array.isArray(v)`. -/
def isArrayB : JsValue → Bool
  | .obj b _ => b
  | _ => false

/-- Is the value an object in the `lodash.isObject` sense (arrays and plain
objects; `null` is not an object for lodash)? -/
def isObjB : JsValue → Bool
  | .obj _ _ => true
  | _ => false

/-- JS truthiness (`Boolean(v)`). -/
def truthy : JsValue → Bool
  | .null => false
  | .bool b => b
  | .num n => decide (n ≠ 0)
  | .str s => decide (s ≠ "")
  | .obj _ _ => true

/-- Truthiness of a possibly-`undefined` value (`undefined` is falsy). -/
def truthyO : Option JsValue → Bool
  | some v => truthy v
  | none => false

/-- First binding of a key in a field list (JS objects have unique keys, so
the first binding is the binding). -/
def lookupField : List (String × JsValue) → String → Option JsValue
  | [], _ => none
  | (k, v) :: rest, key => if k = key then some v else lookupField rest key

/-- Replace the (first) binding of a key, leaving the list unchanged if the
key is absent. -/
def replaceField : List (String × JsValue) → String → JsValue → List (String × JsValue)
  | [], _, _ => []
  | (k, v) :: rest, key, nv =>
      if k = key then (k, nv) :: rest else (k, v) :: replaceField rest key nv

/-- Remove the (first) binding of a key (`delete obj[key]`). -/
def removeField : List (String × JsValue) → String → List (String × JsValue)
  | [], _ => []
  | (k, v) :: rest, key => if k = key then rest else (k, v) :: removeField rest key

/-- Property assignment on a field list: replace an existing binding in place,
else append (JS insertion order). -/
def setField (fs : List (String × JsValue)) (key : String) (v : JsValue) :
    List (String × JsValue) :=
  if (lookupField fs key).isSome then replaceField fs key v else fs ++ [(key, v)]

/-- Is a string the canonical decimal form of an array index? -/
def isIndexKey (s : String) : Bool :=
  match s.toNat? with
  | some n => decide (toString n = s)
  | none => false

/-- The `length` of an array object (dense index fields; see model invariant). -/
def arrayLength (fs : List (String × JsValue)) : Int :=
  Int.ofNat (fs.filter fun p => isIndexKey p.1).length

/-- Own-property read (`v[key]` for a non-null receiver); `none` is
`undefined`.  Arrays expose `length`; strings expose `length` and their
characters at index keys; number/boolean primitives have no own data
properties. -/
def getOwn : JsValue → String → Option JsValue
  | .obj isArr fs, key =>
      match lookupField fs key with
      | some v => some v
      | none => if isArr && key = "length" then some (.num (arrayLength fs)) else none
  | .str s, key =>
      if key = "length" then some (.num (Int.ofNat s.length))
      else
        match key.toNat? with
        | some n =>
            if h : n < s.toList.length then some (.str (String.mk [s.toList.get ⟨n, h⟩]))
            else none
        | none => none
  | _, _ => none

/-- Member read `v[key]`: throws (`TypeError`) when the receiver is `null`. -/
def jsGetMember (v : JsValue) (key : String) : Except Unit (Option JsValue) :=
  match v with
  | .null => .error ()
  | v => .ok (getOwn v key)

/-- Member read through a possibly-`undefined` receiver: reading a property of
`undefined` throws. -/
def jsGetMemberO (v : Option JsValue) (key : String) : Except Unit (Option JsValue) :=
  match v with
  | none => .error ()
  | some v => jsGetMember v key

/-- The `in` operator (`key in v`): own-property test on objects, `TypeError`
on any primitive receiver. -/
def jsIn (key : String) (v : JsValue) : Except Unit Bool :=
  match v with
  | .obj _ _ => .ok (getOwn v key).isSome
  | _ => .error ()

/-- Strict-mode property assignment `v[key] = nv`: rebuilds the object (the
model is pure); throws on `null` and on primitives. -/
def jsSetMember (v : JsValue) (key : String) (nv : JsValue) : Except Unit JsValue :=
  match v with
  | .obj isArr fs => .ok (.obj isArr (setField fs key nv))
  | _ => .error ()

/-- Assignment through a possibly-`undefined` base object. -/
def jsSetMemberO (v : Option JsValue) (key : String) (nv : JsValue) : Except Unit JsValue :=
  match v with
  | none => .error ()
  | some v => jsSetMember v key nv

/-- Strict-mode `delete v[key]`: removes an own field of an object; throws on
`null`/`undefined` base (`ToObject` fails) and on non-configurable string
properties; a no-op on other primitives (the transient wrapper is discarded). -/
def jsDelete (v : JsValue) (key : String) : Except Unit JsValue :=
  match v with
  | .obj isArr fs => .ok (.obj isArr (removeField fs key))
  | .null => .error ()
  | .str s => if (getOwn (.str s) key).isSome then .error () else .ok (.str s)
  | v => .ok v

/-- JS `Object.keys(v)`: own enumerable keys.  Throws on `null` (and callers
guard the `undefined` case).  Array/string `length` is not enumerable. -/
def jsKeys (v : JsValue) : Except Unit (List String) :=
  match v with
  | .null => .error ()
  | .obj _ fs => .ok (fs.map Prod.fst)
  | .str s => .ok ((List.range s.length).map toString)
  | _ => .ok []

mutual
/-- Structural equality of JS values, used to model `_.isEqual` (deep
equality).  Lodash compares objects key-set-wise rather than in key order;
in this module the comparison only decides whether an extra `save` happens
in `loadFromDisk` (unobserved by the verified claims), so the stricter
order-sensitive comparison is used. -/
def beqJs : JsValue → JsValue → Bool
  | .null, .null => true
  | .bool a, .bool b => a == b
  | .num a, .num b => a == b
  | .str a, .str b => a == b
  | .obj a fa, .obj b fb => a == b && beqFields fa fb
  | _, _ => false

/-- Field-list equality component of `beqJs`. -/
def beqFields : List (String × JsValue) → List (String × JsValue) → Bool
  | [], [] => true
  | (k, v) :: r, (k2, v2) :: r2 => k == k2 && beqJs v v2 && beqFields r r2
  | _, _ => false
end

mutual
/-- JS `String(v)` for the values handled here: array conversion joins the
recursively converted index elements with "," (`null` elements become the
empty string), a plain object gives "[object Object]". -/
def jsToString : JsValue → String
  | .null => "null"
  | .bool b => cond b "true" "false"
  | .num n => toString n
  | .str s => s
  | .obj false _ => "[object Object]"
  | .obj true fs => String.intercalate "," (jsToStringElems fs)

/-- Converted element list for array `toString`: index fields in order (join
semantics: `null`/`undefined` elements convert to the empty string). -/
def jsToStringElems : List (String × JsValue) → List String
  | [] => []
  | (k, .null) :: rest =>
      if isIndexKey k then "" :: jsToStringElems rest else jsToStringElems rest
  | (k, v) :: rest =>
      if isIndexKey k then jsToString v :: jsToStringElems rest else jsToStringElems rest
end

/-- Whitespace for the string-trimming built-ins (the common JS whitespace
characters; exotic Unicode space classes are outside the modelled scope). -/
def isWsp (c : Char) : Bool :=
  c = ' ' || c = '\t' || c = '\n' || c = '\r'

/-- JS `s.trim()` (kernel-reducible character-list implementation). -/
def strTrim (s : String) : String :=
  String.mk (((s.toList.dropWhile isWsp).reverse.dropWhile isWsp).reverse)

/-- Decimal digit run to a natural number. -/
def digitsToNat (cs : List Char) : Nat :=
  cs.foldl (fun acc c => acc * 10 + (c.toNat - 48)) 0

/-- Parse the integer written in a string, JS `Number(string)` style: optional
surrounding whitespace, optional sign, decimal digits (leading zeros allowed);
the empty (or all-whitespace) string is 0; anything else is NaN (`none`).
Non-integer numerics are outside the modelled scope. -/
def strToNumber (s : String) : Option Int :=
  match (strTrim s).toList with
  | [] => some 0
  | '-' :: ds => if ds ≠ [] && ds.all Char.isDigit then some (-(Int.ofNat (digitsToNat ds))) else none
  | '+' :: ds => if ds ≠ [] && ds.all Char.isDigit then some (Int.ofNat (digitsToNat ds)) else none
  | ds => if ds.all Char.isDigit then some (Int.ofNat (digitsToNat ds)) else none

/-- JS `ToNumber`: objects convert via their string form; `none` is NaN. -/
def jsToNumber : JsValue → Option Int
  | .null => some 0
  | .bool b => some (cond b 1 0)
  | .num n => some n
  | .str s => strToNumber s
  | v => strToNumber (jsToString v)

/-- Comparison `v < m` for a numeric literal `m` (relational comparison with a number
coerces the other operand with `ToNumber`; NaN comparisons are false). -/
def jsLessThanNum (v : JsValue) (m : Int) : Bool :=
  match jsToNumber v with
  | some n => decide (n < m)
  | none => false

/-- Comparison `v > m` for a numeric literal `m`. -/
def jsGreaterThanNum (v : JsValue) (m : Int) : Bool :=
  match jsToNumber v with
  | some n => decide (n > m)
  | none => false

/-- Model of `JSON.parse` for the scalar literals the module feeds it (command-line
values for boolean/number fields): `true`, `false`, `null`, escape-free
quoted strings, and integer literals.  Composite literals and non-integer
numbers are outside the modelled scope and map to a parse failure. -/
def jsonParseScalar (s : String) : Option JsValue :=
  let t := strTrim s
  if t = "true" then some (.bool true)
  else if t = "false" then some (.bool false)
  else if t = "null" then some .null
  else
    match t.toList with
    | '"' :: rest =>
        if rest ≠ [] && rest.getLast? = some '"' &&
            rest.dropLast.all (fun c => c ≠ '"' && c ≠ '\\') then
          some (.str (String.mk rest.dropLast))
        else none
    | '-' :: ds =>
        if ds ≠ [] && ds.all Char.isDigit && (ds = ['0'] || ds.head? ≠ some '0') then
          some (.num (-(Int.ofNat (digitsToNat ds))))
        else none
    | ds =>
        if ds ≠ [] && ds.all Char.isDigit && (ds = ['0'] || ds.head? ≠ some '0') then
          some (.num (Int.ofNat (digitsToNat ds)))
        else none

end JsValue

namespace RancherSettings

open JsValue

/-- The constant `CURRENT_SETTINGS_VERSION = 5`. -/
def CURRENT_SETTINGS_VERSION : Int := 5

/-- The compiled-in `defaultSettings` object, field for field and in source
order.  `PathManagementStrategy.NotSet` is the enum string "notset";
`ContainerEngine.CONTAINERD` is "containerd". -/
def defaultSettings : JsValue := .obj false [
  ("version", .num 5),
  ("application", .obj false [
      ("adminAccess", .bool true),
      ("debug", .bool false),
      ("pathManagementStrategy", .str "notset"),
      ("telemetry", .obj false [("enabled", .bool true)]),
      ("updater", .obj false [("enabled", .bool true)])]),
  ("containerEngine", .obj false [
      ("imageAllowList", .obj false [
          ("enabled", .bool false),
          ("locked", .bool false),
          ("patterns", .obj true [])]),
      ("name", .str "containerd")]),
  ("virtualMachine", .obj false [
      ("memoryInGB", .num 2),
      ("numberCPUs", .num 2),
      ("hostResolver", .bool true)]),
  ("WSL", .obj false [("integrations", .obj false [])]),
  ("kubernetes", .obj false [
      ("version", .str ""),
      ("port", .num 6443),
      ("enabled", .bool true),
      ("options", .obj false [("traefik", .bool true), ("flannel", .bool true)])]),
  ("portForwarding", .obj false [("includeKubernetesServices", .bool false)]),
  ("images", .obj false [("showAll", .bool true), ("namespace", .str "k8s.io")]),
  ("diagnostics", .obj false [("showMuted", .bool false), ("mutedChecks", .obj false [])]),
  ("autoStart", .bool false),
  ("startInBackground", .bool false),
  ("hideNotificationIcon", .bool false),
  ("window", .obj false [("quitOnClose", .bool false)]),
  ("experimental", .obj false [
      ("virtualMachine", .obj false [("socketVMNet", .bool false)])])]

mutual
/-- Model of `_.defaultsDeep(x, d)` on a single defaults source: for each key of `d`
(in order), fill the key into `x` when it is missing there, and recurse when
both sides hold lodash objects (arrays included); an existing non-object (or
one-sided-object) value in `x` wins.  When `x` is a primitive and `d` an
object, lodash merges into a transient wrapper object; that case is
unreachable from `updateSettings` (a primitive with a non-empty key list
always throws inside the migration table first) and the model returns `x`. -/
def ddVal : JsValue → JsValue → JsValue
  | .obj xb xf, .obj _ df => .obj xb (ddFields xf df)
  | x, _ => x

/-- Merge the fields of a defaults source into a target field list,
sequentially per source key. -/
def ddFields : List (String × JsValue) → List (String × JsValue) →
    List (String × JsValue)
  | xf, [] => xf
  | xf, (k, dv) :: rest =>
      ddFields
        (match lookupField xf k with
         | some xv => replaceField xf k (ddVal xv dv)
         | none => xf ++ [(k, dv)])
        rest
end

/-- One merge step of `ddFields` (split out for the lemmas). -/
def ddStep (xf : List (String × JsValue)) (k : String) (dv : JsValue) :
    List (String × JsValue) :=
  match lookupField xf k with
  | some xv => replaceField xf k (ddVal xv dv)
  | none => xf ++ [(k, dv)]

/-- Build an object-literal field from a possibly-`undefined` value
expression.  In JS the property exists with value `undefined`; the model
omits the field, which is indistinguishable downstream (see conventions). -/
def optField (k : String) : Option JsValue → List (String × JsValue)
  | some v => [(k, v)]
  | none => []

/-- Migration step `updateTable[1]`: drop `kubernetes.rancherMode` if present.
Evaluating `'rancherMode' in settings.kubernetes` throws when
`settings.kubernetes` is not an object. -/
def updateTableStep1 (settings : JsValue) : Except Unit JsValue := do
  let kub ← jsGetMember settings "kubernetes"
  match kub with
  | none => .error ()
  | some kub =>
      match kub with
      | .obj _ _ => do
          if (← jsIn "rancherMode" kub) then do
            let kub2 ← jsDelete kub "rancherMode"
            jsSetMember settings "kubernetes" kub2
          else
            .ok settings
      | _ => .error ()

/-- Migration step `updateTable[4]` (the v4 → v5 restructuring), in source
evaluation order.  Object-literal fields whose source expression is
`undefined` are omitted per the model conventions. -/
def updateTableStep4 (settings : JsValue) : Except Unit JsValue := do
  -- settings.application = { adminAccess: !settings.kubernetes.suppressSudo, ... }
  let kub ← jsGetMember settings "kubernetes"
  let suppressSudo ← jsGetMemberO kub "suppressSudo"
  let debugV ← jsGetMember settings "debug"
  let pms ← jsGetMember settings "pathManagementStrategy"
  let telemetryV ← jsGetMember settings "telemetry"
  let updaterV ← jsGetMember settings "updater"
  let application : JsValue := .obj false (
    [("adminAccess", .bool (!truthyO suppressSudo))] ++
    optField "debug" debugV ++
    optField "pathManagementStrategy" pms ++
    [("telemetry", .obj false (optField "enabled" telemetryV)),
     ("updater", .obj false (optField "enabled" updaterV))])
  let settings ← jsSetMember settings "application" application
  -- settings.virtualMachine = { hostResolver: ..., memoryInGB: ..., numberCPUs: ... }
  let kub ← jsGetMember settings "kubernetes"
  let hostResolver ← jsGetMemberO kub "hostResolver"
  let memoryInGB ← jsGetMemberO kub "memoryInGB"
  let numberCPUs ← jsGetMemberO kub "numberCPUs"
  let virtualMachine : JsValue := .obj false (
    optField "hostResolver" hostResolver ++
    optField "memoryInGB" memoryInGB ++
    optField "numberCPUs" numberCPUs)
  let settings ← jsSetMember settings "virtualMachine" virtualMachine
  -- settings.experimental = { virtualMachine: { socketVMNet: settings.kubernetes.experimental.socketVMNet } }
  let kub ← jsGetMember settings "kubernetes"
  let experimentalV ← jsGetMemberO kub "experimental"
  let socketVMNet ← jsGetMemberO experimentalV "socketVMNet"
  let settings ← jsSetMember settings "experimental"
    (.obj false [("virtualMachine", .obj false (optField "socketVMNet" socketVMNet))])
  -- settings.WSL = { integrations: settings.kubernetes.WSLIntegrations }
  let kub ← jsGetMember settings "kubernetes"
  let wslIntegrations ← jsGetMemberO kub "WSLIntegrations"
  let settings ← jsSetMember settings "WSL"
    (.obj false (optField "integrations" wslIntegrations))
  -- settings.containerEngine.name = settings.kubernetes.containerEngine
  let ceBase ← jsGetMember settings "containerEngine"
  let kub ← jsGetMember settings "kubernetes"
  let kubContainerEngine ← jsGetMemberO kub "containerEngine"
  let ceNew ← (match kubContainerEngine with
    | some v => jsSetMemberO ceBase "name" v
    | none =>
        -- assigning `undefined` still requires an object base and creates the
        -- property with value `undefined`; the model leaves the field absent
        match ceBase with
        | some (.obj _ _) => .ok (ceBase.getD .null)
        | _ => .error ())
  let settings ← jsSetMember settings "containerEngine" ceNew
  -- delete settings.kubernetes.{containerEngine, experimental, hostResolver,
  --   checkForExistingKimBuilder, memoryInGB, numberCPUs, suppressSudo, WSLIntegrations}
  let kub ← jsGetMember settings "kubernetes"
  match kub with
  | none => .error ()
  | some kub => do
      let kub ← jsDelete kub "containerEngine"
      let kub ← jsDelete kub "experimental"
      let kub ← jsDelete kub "hostResolver"
      let kub ← jsDelete kub "checkForExistingKimBuilder"
      let kub ← jsDelete kub "memoryInGB"
      let kub ← jsDelete kub "numberCPUs"
      let kub ← jsDelete kub "suppressSudo"
      let kub ← jsDelete kub "WSLIntegrations"
      let settings ← jsSetMember settings "kubernetes" kub
      -- delete settings.{debug, pathManagementStrategy, telemetry, updater}
      let settings ← jsDelete settings "debug"
      let settings ← jsDelete settings "pathManagementStrategy"
      let settings ← jsDelete settings "telemetry"
      let settings ← jsDelete settings "updater"
      .ok settings

/-- Table dispatch `updateTable[key](settings)` guarded by `if (updateTable[loadedVersion])`:
the table is a JS record, so its keys are the strings "1".."4"; versions 2 and
3 are registered no-ops, absent keys are skipped. -/
def applyUpdateTable (key : String) (settings : JsValue) : Except Unit JsValue :=
  if key = "1" then updateTableStep1 settings
  else if key = "2" then .ok settings
  else if key = "3" then .ok settings
  else if key = "4" then updateTableStep4 settings
  else .ok settings

/-- The migration `for` loop after its first iteration: `loadedVersion` has
been incremented with `++`, so it is a plain number from here on; run while
`loadedVersion < CURRENT_SETTINGS_VERSION`.  `fuel` is
`(CURRENT_SETTINGS_VERSION - n).toNat`, the exact remaining iteration count. -/
def migrationLoop : Nat → Int → JsValue → Except Unit JsValue
  | 0, _, settings => .ok settings
  | fuel + 1, n, settings => do
      let settings ← applyUpdateTable (toString n) settings
      migrationLoop fuel (n + 1) settings

/-- The version-dispatch part of `updateSettings`: read
`loadedVersion = settings.version || 0`; if it compares `<` the current
version run the migration loop (the first table lookup uses the original
`loadedVersion` value as the record key; `loadedVersion++` then coerces it to
a number); a "settings file from the future" only logs. -/
def migrateBody (settings : JsValue) : Except Unit JsValue := do
  let versionProp ← jsGetMember settings "version"
  let loadedVersion : JsValue :=
    match versionProp with
    | some v => if truthy v then v else .num 0
    | none => .num 0
  if jsLessThanNum loadedVersion CURRENT_SETTINGS_VERSION then do
    let settings ← applyUpdateTable (jsToString loadedVersion) settings
    let n1 : Int := (jsToNumber loadedVersion).getD 0 + 1
    migrationLoop (CURRENT_SETTINGS_VERSION - n1).toNat n1 settings
  else
    -- if (settings.version && settings.version > CURRENT_SETTINGS_VERSION): only console.log
    .ok settings

/-- The tail of `updateSettings`: `settings.version = CURRENT_SETTINGS_VERSION`
followed by `return _.defaultsDeep(settings, defaultSettings)`. -/
def finalizeSettings (settings : JsValue) : Except Unit JsValue := do
  let settings ← jsSetMember settings "version" (.num CURRENT_SETTINGS_VERSION)
  .ok (ddVal settings defaultSettings)

/-- Model of `updateSettings(settings)`: the whole migration routine.  An empty key
list short-circuits to the compiled-in defaults; `Object.keys` throws on
`null`. -/
def updateSettings (settings : JsValue) : Except Unit JsValue := do
  let keys ← jsKeys settings
  if keys.length = 0 then
    .ok defaultSettings
  else do
    let settings ← migrateBody settings
    finalizeSettings settings

end RancherSettings

namespace RancherSettings

open JsValue

/-- In JS, `Object.keys` of a string profile are its index keys; `forEach` then
checks each against the schema, and a check failure attempts
`delete profile[key]` on a non-configurable string index, which throws in
strict mode (this module is an ES module, hence strict). -/
def validateProfileIndexKeys : List String → JsValue → Except Unit Unit
  | [], _ => .ok ()
  | k :: rest, s => do
      let _h ← jsIn k s
      match getOwn s k with
      | some sv =>
          if jsTypeof sv = "string" then validateProfileIndexKeys rest s
          else .error ()
      | none => .error ()

mutual
/-- The body of `validateDeploymentProfile` for a defined profile value:
`Object.keys(profile).forEach` with per-key schema checks.  `Object.keys`
throws on `null`; numbers and booleans have no keys and pass through
unchanged; strings are handled by `validateProfileIndexKeys`. -/
def validateProfileValue : JsValue → JsValue → Except Unit JsValue
  | .null, _ => .error ()
  | .obj b fs, s => do
      let fs2 ← validateProfileFields fs s
      .ok (.obj b fs2)
  | .str st, s => do
      let _h ← validateProfileIndexKeys ((List.range st.length).map toString) s
      .ok (.str st)
  | p, _ => .ok p

/-- Per-key validation over a snapshot of the profile's keys.  A deleted key
is dropped from the rebuilt field list.  Note the source's array check is
`Array.isArray(profile[key] !== Array.isArray(schema[key]))`: the inner
expression is a *boolean* (a strict inequation), so `Array.isArray` of it is
constantly false and the "Array type mismatch" deletion branch is dead code;
it is modelled literally. -/
def validateProfileFields : List (String × JsValue) → JsValue →
    Except Unit (List (String × JsValue))
  | [], _ => .ok []
  | (k, v) :: rest, s => do
      let _h ← jsIn k s
      match getOwn s k with
      | some sv =>
          if jsTypeof v = jsTypeof sv then
            if jsTypeof v = "object" then
              if isArrayB (JsValue.bool (!beqJs v (.bool (isArrayB sv)))) then
                validateProfileFields rest s
              else if !isArrayB v then do
                let v2 ← validateProfileValue v sv
                let rest2 ← validateProfileFields rest s
                .ok ((k, v2) :: rest2)
              else do
                let rest2 ← validateProfileFields rest s
                .ok ((k, v) :: rest2)
            else do
              let rest2 ← validateProfileFields rest s
              .ok ((k, v) :: rest2)
          else
            validateProfileFields rest s
      | none => validateProfileFields rest s
end

/-- Model of `validateDeploymentProfile(profile, schema)`: an `undefined` profile is
returned unchanged; otherwise the keys are filtered in place. -/
def validateDeploymentProfile (profile : Option JsValue) (schema : JsValue) :
    Except Unit (Option JsValue) :=
  match profile with
  | none => .ok none
  | some p => do
      let p2 ← validateProfileValue p schema
      .ok (some p2)

mutual
/-- Schema conformance of a filtered profile, as guaranteed by the validator
as written: walking through plain-object values, every key is an (own or
array-`length`) property of the schema with matching `typeof`; array values
are retained whole and their contents are not inspected. -/
def conformsB : JsValue → JsValue → Bool
  | .obj false fs, s => conformsFields fs s
  | _, _ => true

/-- Field-wise part of `conformsB`. -/
def conformsFields : List (String × JsValue) → JsValue → Bool
  | [], _ => true
  | (k, v) :: rest, s =>
      (match getOwn s k with
       | some sv => jsTypeof v == jsTypeof sv && conformsB v sv
       | none => false) && conformsFields rest s
end

mutual
/-- No `null` occurs anywhere in the value. -/
def noNulls : JsValue → Bool
  | .null => false
  | .obj _ fs => noNullsFields fs
  | _ => true

/-- Field-wise part of `noNulls`. -/
def noNullsFields : List (String × JsValue) → Bool
  | [] => true
  | (_, v) :: rest => noNulls v && noNullsFields rest
end

/-- The key is not bound in the field list. -/
def keyNotIn (k : String) : List (String × JsValue) → Bool
  | [] => true
  | (k2, _) :: rest => !(k2 == k) && keyNotIn k rest

mutual
/-- Every object in the value has pairwise distinct keys (true of every value
that denotes an actual JavaScript object, in particular `defaultSettings`). -/
def nodupRec : JsValue → Bool
  | .obj _ fs => nodupRecFields fs
  | _ => true

/-- Field-wise part of `nodupRec`. -/
def nodupRecFields : List (String × JsValue) → Bool
  | [] => true
  | (k, v) :: rest => keyNotIn k rest && nodupRec v && nodupRecFields rest
end

/-- Host platform (`os.platform()`), restricted to the three cases the module
dispatches on. -/
inductive Platform where
  | win32
  | linux
  | darwin
deriving DecidableEq

/-- Outcome of reading and parsing one profile file: the file is absent
(`ENOENT`), it exists but reading/parsing throws, or it parses to a value. -/
inductive FileOutcome where
  | missing
  | unparsable
  | parsed (v : JsValue)

/-- One candidate profile directory: its `defaults` artifact and its `locked`
artifact (`defaults.json` / `locked.json` on Linux, the two
`io.rancherdesktop.profile.*.plist` files on macOS). -/
structure ProfileRoot where
  defaultsFile : FileOutcome
  lockedFile : FileOutcome

/-- The two candidate profile directories, system first. -/
structure FileEnv where
  system : ProfileRoot
  user : ProfileRoot

/-- An opened registry key, abstracted to its value oracle:
`getValue path name` is `nativeReg.getValue(regKey, path.join('\\'), name)`,
returning `none` for an absent value, a `JsValue` for data, or throwing. -/
structure RegKeyModel where
  getValue : List String → String → Except Unit (Option JsValue)

/-- The two registry hives, `HKLM` first; `none` models
`nativeReg.openKey` returning `null`. -/
structure RegEnv where
  hklm : Option RegKeyModel
  hkcu : Option RegKeyModel

/-- Everything `readDeploymentProfiles` reads from the host. -/
structure DeployEnv where
  reg : RegEnv
  files : FileEnv

/-- Model of `readProfileFiles(rootPath, defaultsPath, lockedPath, parser)`: a failure
reading or parsing the defaults file is swallowed (`catch {}`); for the
locked file only `ENOENT` is swallowed and every other failure is rethrown as
an error. -/
def readProfileFiles (root : ProfileRoot) : Except Unit (Option JsValue × Option JsValue) :=
  let defaults : Option JsValue :=
    match root.defaultsFile with
    | .parsed v => some v
    | _ => none
  match root.lockedFile with
  | .parsed v => .ok (defaults, some v)
  | .missing => .ok (defaults, none)
  | .unparsable => .error ()

mutual
/-- Model of `readRegistryUsingSchema(object, schemaObj, regKey, regPath)`: walk the
schema template; recurse on non-array object schema values, read a registry
value at leaves; collect defined, non-`null` results into a fresh object
(`newObject ??= {}`), coercing numbers to booleans where the schema expects a
boolean (any other type there is logged and becomes `false`).  Returns
`undefined` when nothing was found.  A throw from `getValue` propagates. -/
def readRegistryUsingSchema (schemaObj : JsValue) (reg : RegKeyModel)
    (regPath : List String) : Except Unit (Option JsValue) :=
  match schemaObj with
  | .obj _ sfs => do
      let acc ← regFields sfs reg regPath none
      .ok (acc.map fun fs => .obj false fs)
  | .null => .error ()
  | _ => .ok none

/-- The `Object.entries(schemaObj)` iteration of `readRegistryUsingSchema`,
threading the optional `newObject` accumulator. -/
def regFields : List (String × JsValue) → RegKeyModel → List String →
    Option (List (String × JsValue)) →
    Except Unit (Option (List (String × JsValue)))
  | [], _, _, acc => .ok acc
  | (schemaKey, schemaVal) :: rest, reg, regPath, acc => do
      let regValue ←
        if isObjB schemaVal && !isArrayB schemaVal then
          readRegistryUsingSchema schemaVal reg (regPath ++ [schemaKey])
        else
          reg.getValue regPath schemaKey
      match regValue with
      | none => regFields rest reg regPath acc
      | some .null => regFields rest reg regPath acc
      | some rv =>
          let rv2 : JsValue :=
            if jsTypeof schemaVal = "boolean" then
              match rv with
              | .num n => JsValue.bool (decide (n ≠ 0))
              | _ => JsValue.bool false
            else rv
          regFields rest reg regPath (some (setField (acc.getD []) schemaKey rv2))
end

/-- One iteration of the `win32` hive loop, from the current outer
`profiles` state: a `null` key is skipped; otherwise
`profiles.defaults = readRegistryUsingSchema(..., ['Defaults'])` then
`profiles.locked = readRegistryUsingSchema(..., ['Locked'])` run inside
`try { } catch { console.error(...) }`, so a throw is swallowed — but an
assignment made before the throw sticks. -/
def win32Hive (st : Option JsValue × Option JsValue) (key : Option RegKeyModel) :
    Option JsValue × Option JsValue :=
  match key with
  | none => st
  | some k =>
      match readRegistryUsingSchema defaultSettings k ["Defaults"] with
      | .error _ => st
      | .ok dv =>
          match readRegistryUsingSchema defaultSettings k ["Locked"] with
          | .error _ => (dv, st.2)
          | .ok lv => (dv, lv)

/-- The `win32` loop over `[nativeReg.HKLM, nativeReg.HKCU]` with its
early-`break` test. -/
def win32Loop (reg : RegEnv) : Option JsValue × Option JsValue :=
  let st1 := win32Hive (none, none) reg.hklm
  if st1.1.isSome || st1.2.isSome then st1
  else win32Hive st1 reg.hkcu

/-- The `linux`/`darwin` loop over the two profile directories.  The source
declares `const profiles = readProfileFiles(...)` *inside* the loop, which
shadows the outer `profiles` object: the files are read (and a locked-parse
throw propagates), the `break` test consults the inner object, but the outer
`profiles.defaults`/`profiles.locked` are never assigned and stay
`undefined`.  Modelled faithfully. -/
def filesLoop (files : FileEnv) : Except Unit (Option JsValue × Option JsValue) := do
  let inner1 ← readProfileFiles files.system
  if inner1.1.isSome || inner1.2.isSome then
    .ok (none, none)
  else do
    let _inner2 ← readProfileFiles files.user
    .ok (none, none)

/-- Model of `readDeploymentProfiles()`: platform dispatch, then both artifacts pass
through `validateDeploymentProfile(..., defaultSettings) ?? {}`. -/
def readDeploymentProfiles (platform : Platform) (env : DeployEnv) :
    Except Unit (JsValue × JsValue) := do
  let profiles : Option JsValue × Option JsValue ←
    match platform with
    | .win32 => .ok (win32Loop env.reg)
    | .linux => filesLoop env.files
    | .darwin => filesLoop env.files
  let d ← validateDeploymentProfile profiles.1 defaultSettings
  let l ← validateDeploymentProfile profiles.2 defaultSettings
  .ok (d.getD (.obj false []), l.getD (.obj false []))

end RancherSettings

namespace RancherSettings

open JsValue

/-- Split a string at its first `'='` (`arg.indexOf('=')` plus the two
`substring` calls); `none` models `equalPosition === -1`. -/
def splitEqChars : List Char → Option (List Char × List Char)
  | [] => none
  | c :: rest =>
      if c = '=' then some ([], rest)
      else
        match splitEqChars rest with
        | some (a, b) => some (c :: a, b)
        | none => none

/-- String-level wrapper for `splitEqChars`. -/
def splitEq (body : String) : Option (String × String) :=
  (splitEqChars body.toList).map fun p => (String.mk p.1, String.mk p.2)

/-- Model of `arg.startsWith('--')` (kernel-reducible). -/
def startsWithDashDash (arg : String) : Bool :=
  match arg.toList with
  | '-' :: '-' :: _ => true
  | _ => false

/-- Model of `arg.substring(2)` (kernel-reducible). -/
def strDrop2 (arg : String) : String :=
  String.mk (arg.toList.drop 2)

/-- Character-level `split('.')`. -/
def splitCharsOnDot : List Char → List (List Char)
  | [] => [[]]
  | c :: rest =>
      match splitCharsOnDot rest with
      | [] => [[]]
      | g :: gs => if c = '.' then [] :: g :: gs else (c :: g) :: gs

/-- Model of `fqFieldAccessor.split('.')` (kernel-reducible; agrees with the JS
`String.prototype.split` on a one-character separator). -/
def splitAccessor (s : String) : List String :=
  (splitCharsOnDot s.toList).map String.mk

/-- The accessor walk of `getUpdatableNode`:
`currentConfig = currentConfig[field] || {}` per component.  A property read
on `null` throws; an absent or falsy member is replaced by a fresh (detached)
empty object. -/
def walkNode (cfg : JsValue) : List String → Except Unit JsValue
  | [] => .ok cfg
  | f :: rest => do
      let nxt ←
        match cfg with
        | .null => .error ()
        | v =>
            .ok (match getOwn v f with
                 | some w => if truthy w then w else .obj false []
                 | none => .obj false [])
      walkNode nxt rest

/-- Model of `getUpdatableNode(cfg, fqFieldAccessor)` over the already-split accessor
components.  The model returns the access *path* to the updatable subtree
instead of a mutable reference: whenever the result is non-null, every
intermediate lookup was a truthy member of `cfg` (a walk that ever takes the
`|| {}` branch ends in a detached empty object with no properties, and a
truthy primitive on the path makes the final `in` throw), so the path
identifies the same node that the source aliases.  The final `in` check
throws on a primitive node. -/
def getUpdatableNodeParts (cfg : JsValue) (parts : List String) :
    Except Unit (Option (List String × String)) := do
  let finalOptionPart := parts.getLast?.getD ""
  let optionParts := parts.dropLast
  let node ← walkNode cfg optionParts
  let b ← jsIn finalOptionPart node
  .ok (if b then some (optionParts, finalOptionPart) else none)

/-- Model of `getUpdatableNode(cfg, fqFieldAccessor)`. -/
def getUpdatableNode (cfg : JsValue) (fqFieldAccessor : String) :
    Except Unit (Option (List String × String)) :=
  getUpdatableNodeParts cfg (splitAccessor fqFieldAccessor)

/-- Write through the path returned by `getUpdatableNode`
(`lhs[finalFieldName] = finalValue`).  A falsy or absent intermediate means
the source walk continued inside a detached `{}`, so the assignment does not
reach `cfg`; an array `length` target is modelled as an ordinary field (not
reachable in the verified claims). -/
def setIn (cfg : JsValue) : List String → String → JsValue → JsValue
  | [], final, v =>
      match cfg with
      | .obj b fs => .obj b (setField fs final v)
      | _ => cfg
  | p :: rest, final, v =>
      match cfg with
      | .obj b fs =>
          match lookupField fs p with
          | some sub =>
              if truthy sub then .obj b (replaceField fs p (setIn sub rest final v))
              else cfg
          | none => cfg
      | _ => cfg

/-- Parse/type-check/assign one recognized override value (the
`['boolean','number']` JSON-parse step plus the final assignment; raw string
assignment otherwise). -/
def assignParsed (cfg : JsValue) (parts : List String) (final : String)
    (cvType : String) (raw : String) : Except Unit JsValue :=
  if cvType = "boolean" || cvType = "number" then
    match jsonParseScalar raw with
    | none => .error ()
    | some v => if jsTypeof v = cvType then .ok (setIn cfg parts final v) else .error ()
  else
    .ok (setIn cfg parts final (.str raw))

/-- The argument loop of `updateFromCommandLine`, threading the settings
object, the `TransientSettings.noModalDialogs` store (`none` = never updated)
and `processingExternalArguments`. -/
def processArgs (cfg : JsValue) (noModal : Option Bool) (pe : Bool) :
    List String → Except Unit (JsValue × Option Bool)
  | [] => .ok (cfg, noModal)
  | arg :: rest =>
      if !startsWithDashDash arg then
        if pe then processArgs cfg noModal pe rest
        else .error ()
      else
        let body := strDrop2 arg
        let (hasEq, fqFieldName, value) :=
          match splitEq body with
          | some (name, v) => (true, name, v)
          | none => (false, body, "")
        if fqFieldName = "no-modal-dialogs" then
          if value = "" || value = "true" then
            processArgs cfg (some true) false rest
          else if value = "false" then
            processArgs cfg (some false) false rest
          else
            .error ()
        else
          match getUpdatableNode cfg fqFieldName with
          | .error _ => .error ()
          | .ok none =>
              if pe then processArgs cfg noModal pe rest
              else .error ()
          | .ok (some (parts, final)) =>
              match walkNode cfg parts with
              | .error _ => .error ()
              | .ok node =>
                  let cvType :=
                    match getOwn node final with
                    | some v => jsTypeof v
                    | none => "undefined"
                  if cvType = "object" then .error ()
                  else if cvType = "boolean" then
                    match assignParsed cfg parts final cvType
                        (if hasEq then value else "true") with
                    | .error _ => .error ()
                    | .ok cfg2 => processArgs cfg2 noModal false rest
                  else if hasEq then
                    match assignParsed cfg parts final cvType value with
                    | .error _ => .error ()
                    | .ok cfg2 => processArgs cfg2 noModal false rest
                  else
                    match rest with
                    | [] => .error ()
                    | nextArg :: rest2 =>
                        match assignParsed cfg parts final cvType nextArg with
                        | .error _ => .error ()
                        | .ok cfg2 => processArgs cfg2 noModal false rest2

/-- Result of a successful `updateFromCommandLine` run: the (possibly
mutated) settings, the last `TransientSettings` update, whether `save(cfg)`
ran, and whether `_isFirstRun` was reset to false. -/
structure CLIResult where
  cfg : JsValue
  noModalDialogs : Option Bool
  saved : Bool
  firstRunCleared : Bool

/-- Model of `updateFromCommandLine(cfg, commandLineArgs)`: run the argument loop;
afterwards `if (lim > 0) { save(cfg); _isFirstRun = false; }`. -/
def updateFromCommandLine (cfg : JsValue) (commandLineArgs : List String) :
    Except Unit CLIResult := do
  let r ← processArgs cfg none true commandLineArgs
  if commandLineArgs.length > 0 then
    .ok ⟨r.1, r.2, true, true⟩
  else
    .ok ⟨r.1, r.2, false, false⟩

/-- What `loadFromDisk` can throw: a missing settings file surfaces the
`ENOENT` read error; everything else thrown while migrating or fixing the
engine name is some other exception (`err.code !== 'ENOENT'`). -/
inductive LoadErr where
  | enoent
  | typeError
deriving DecidableEq

/-- Everything `load` reads from the host: the settings-file parse outcome
and the inputs of its first-run heuristics.  `quarterMemGB` stands for
`Math.round(os.totalmem() / 2**30 / 4.0)` (supplied as an integer; float
arithmetic is outside the modelled scope), `appImage` for
`!!process.env['APPIMAGE']`, `appVersionDev` for
`getProductionVersion()` containing '-' or '?'. -/
structure LoadEnv where
  settingsFile : FileOutcome
  platform : Platform
  quarterMemGB : Int
  appImage : Bool
  appVersionDev : Bool

/-- Module state: the memoized `settings` instance, the `_isFirstRun` flag
and the last successfully written settings file. -/
structure SettingsState where
  cache : Option JsValue
  isFirstRun : Bool
  savedFile : Option JsValue

/-- Model of `save(cfg)`: serialize and write the settings file (directory creation
and the error dialog on write failure are outside the model — a failed save
never throws to the caller). -/
def save (cfg : JsValue) (st : SettingsState) : SettingsState :=
  { st with savedFile := some cfg }

/-- Is the engine name one of `Object.values(ContainerEngine).map(String)`
(`''`, `'containerd'`, `'moby'`)?  `includes` on an `undefined` name is
false. -/
def engineNameOk (name : Option JsValue) : Bool :=
  match name with
  | some v => beqJs v (.str "") || beqJs v (.str "containerd") || beqJs v (.str "moby")
  | none => false

/-- The successfully-decoded branch of `loadFromDisk`: migrate the clone,
then the container-engine sanity check (`cfg.containerEngine.name`, whose
member-access throws surface as non-`ENOENT` errors) and the
persist-if-changed step. -/
def loadFromDiskParsed (v : JsValue) (st : SettingsState) :
    Except LoadErr (JsValue × SettingsState) :=
  match updateSettings v with
  | .error _ => .error .typeError
  | .ok cfg =>
      match jsGetMember cfg "containerEngine" with
      | .error _ => .error .typeError
      | .ok ce =>
          match jsGetMemberO ce "name" with
          | .error _ => .error .typeError
          | .ok name =>
              if engineNameOk name then
                if beqJs cfg v then .ok (cfg, st)
                else .ok (cfg, save cfg st)
              else
                -- cfg.containerEngine.name = ContainerEngine.CONTAINERD
                match jsSetMemberO ce "name" (.str "containerd") with
                | .error _ => .error .typeError
                | .ok ce2 =>
                    match jsSetMember cfg "containerEngine" ce2 with
                    | .error _ => .error .typeError
                    | .ok cfg2 => .ok (cfg2, save cfg2 st)

/-- Model of `loadFromDisk()`: read and JSON-parse the settings file; a missing file
surfaces the `ENOENT` read error, a parse failure saves and returns the
compiled-in defaults. -/
def loadFromDisk (env : LoadEnv) (st : SettingsState) :
    Except LoadErr (JsValue × SettingsState) :=
  match env.settingsFile with
  | .missing => .error .enoent
  | .unparsable => .ok (defaultSettings, save defaultSettings st)
  | .parsed v => loadFromDiskParsed v st

/-- Model of `load()`: memoized load with the fallback-to-defaults error handling,
first-run marking and the platform heuristics. -/
def load (env : LoadEnv) (st : SettingsState) : JsValue × SettingsState :=
  match st.cache with
  | some s => (s, st)
  | none =>
      match loadFromDisk env st with
      | .ok (cfg, st2) => (cfg, { st2 with cache := some cfg })
      | .error e =>
          let s := defaultSettings
          let s :=
            if e = .enoent &&
                (env.platform = .darwin || env.platform = .linux) then
              setIn s ["virtualMachine"] "memoryInGB" (.num (min 6 env.quarterMemGB))
            else s
          let s :=
            if env.platform = .linux && !env.appImage then
              setIn s ["application", "updater"] "enabled" (.bool false)
            else s
          let s :=
            if env.appVersionDev then
              setIn s ["application", "updater"] "enabled" (.bool false)
            else s
          let st2 := save s st
          (s, { st2 with cache := some s,
                         isFirstRun := (if e = .enoent then true else st.isFirstRun) })

/-- Model of `firstRunDialogNeeded()`. -/
def firstRunDialogNeeded (st : SettingsState) : Bool :=
  st.isFirstRun

end RancherSettings

namespace RancherSettings

open JsValue

theorem lookupField_append (xs ys : List (String × JsValue)) (k : String) :
    lookupField (xs ++ ys) k =
      match lookupField xs k with
      | some v => some v
      | none => lookupField ys k := by
  induction xs with
  | nil => simp [lookupField]
  | cons p rest ih =>
      obtain ⟨k2, v⟩ := p
      by_cases h : k2 = k <;> simp [lookupField, h, ih]

theorem lookupField_replaceField_ne (fs : List (String × JsValue)) (key k : String)
    (nv : JsValue) (h : k ≠ key) :
    lookupField (replaceField fs key nv) k = lookupField fs k := by
  induction fs with
  | nil => rfl
  | cons p rest ih =>
      obtain ⟨k2, v⟩ := p
      by_cases h2 : k2 = key
      · subst h2
        simp [replaceField, lookupField, Ne.symm h]
      · by_cases h3 : k2 = k <;> simp [replaceField, lookupField, h2, h3, h, ih]

theorem lookupField_replaceField_eq (fs : List (String × JsValue)) (key : String)
    (nv : JsValue) :
    lookupField (replaceField fs key nv) key = (lookupField fs key).map fun _ => nv := by
  induction fs with
  | nil => rfl
  | cons p rest ih =>
      obtain ⟨k2, v⟩ := p
      by_cases h2 : k2 = key <;> simp [replaceField, lookupField, h2, ih]

theorem replaceField_self (fs : List (String × JsValue)) (key : String) (v : JsValue)
    (h : lookupField fs key = some v) : replaceField fs key v = fs := by
  induction fs with
  | nil => rfl
  | cons p rest ih =>
      obtain ⟨k2, v2⟩ := p
      by_cases h2 : k2 = key
      · subst h2
        simp [lookupField] at h
        simp [replaceField, h]
      · simp [lookupField, h2] at h
        simp [replaceField, h2, ih h]

theorem lookupField_setField_eq (fs : List (String × JsValue)) (key : String) (v : JsValue) :
    lookupField (setField fs key v) key = some v := by
  unfold setField
  by_cases h : (lookupField fs key).isSome
  · obtain ⟨w, hw⟩ := Option.isSome_iff_exists.mp h
    simp [h, lookupField_replaceField_eq, hw]
  · simp [h, lookupField_append, Option.not_isSome_iff_eq_none.mp h, lookupField]

theorem setField_self (fs : List (String × JsValue)) (key : String) (v : JsValue)
    (h : lookupField fs key = some v) : setField fs key v = fs := by
  unfold setField
  simp [h, replaceField_self fs key v h]

theorem ddFields_cons (xf : List (String × JsValue)) (k : String) (dv : JsValue)
    (rest : List (String × JsValue)) :
    ddFields xf ((k, dv) :: rest) = ddFields (ddStep xf k dv) rest := rfl

theorem lookup_ddStep_eq (xf : List (String × JsValue)) (k : String) (dv : JsValue) :
    lookupField (ddStep xf k dv) k =
      some (match lookupField xf k with
            | some xv => ddVal xv dv
            | none => dv) := by
  unfold ddStep
  cases h : lookupField xf k with
  | some xv => simp [lookupField_replaceField_eq, h]
  | none => simp [lookupField_append, h, lookupField]

theorem lookup_ddStep_ne (xf : List (String × JsValue)) (k2 k : String) (dv : JsValue)
    (h : k ≠ k2) :
    lookupField (ddStep xf k2 dv) k = lookupField xf k := by
  unfold ddStep
  cases h2 : lookupField xf k2 with
  | some xv => simp [lookupField_replaceField_ne _ _ _ _ h]
  | none =>
      rw [lookupField_append]
      cases h3 : lookupField xf k with
      | some v => rfl
      | none => simp [lookupField, Ne.symm h]

theorem scalar_ddVal (v : JsValue) (h : isObjB v = false) (dv : JsValue) :
    ddVal v dv = v := by
  cases v <;> cases dv <;> first | rfl | simp [isObjB] at h

theorem lookup_ddFields_stable (v : JsValue) (hv : ∀ dv, ddVal v dv = v) :
    ∀ (df xf : List (String × JsValue)) (k : String),
    lookupField xf k = some v → lookupField (ddFields xf df) k = some v := by
  intro df
  induction df with
  | nil => intro xf k h; simpa [ddFields] using h
  | cons p rest ih =>
      obtain ⟨k2, dv⟩ := p
      intro xf k h
      rw [ddFields_cons]
      by_cases hk : k = k2
      · subst hk
        refine ih _ _ ?_
        rw [lookup_ddStep_eq, h]
        simp [hv dv]
      · exact ih _ _ ((lookup_ddStep_ne xf k2 k dv hk).trans h)

theorem lookupField_ne_nil {fs : List (String × JsValue)} {k : String} {v : JsValue}
    (h : lookupField fs k = some v) : fs ≠ [] := by
  intro he
  subst he
  simp [lookupField] at h

end RancherSettings

namespace RancherSettings

open JsValue

theorem keyNotIn_spec {k : String} {fs : List (String × JsValue)}
    (h : keyNotIn k fs = true) : ∀ p ∈ fs, p.1 ≠ k := by
  induction fs with
  | nil => intro p hp; simp at hp
  | cons q rest ih =>
      obtain ⟨k2, v2⟩ := q
      simp only [keyNotIn, Bool.and_eq_true, Bool.not_eq_true'] at h
      intro p hp
      rcases List.mem_cons.mp hp with rfl | hp2
      · simpa using h.1
      · exact ih h.2 p hp2

theorem nodupRecFields_head {k : String} {v : JsValue} {rest : List (String × JsValue)}
    (h : nodupRecFields ((k, v) :: rest) = true) :
    keyNotIn k rest = true ∧ nodupRec v = true ∧ nodupRecFields rest = true := by
  simpa [nodupRecFields, Bool.and_eq_true, and_assoc] using h

theorem nodup_lookup_mem {fs : List (String × JsValue)}
    (h : nodupRecFields fs = true) : ∀ p ∈ fs, lookupField fs p.1 = some p.2 := by
  induction fs with
  | nil => intro p hp; simp at hp
  | cons q rest ih =>
      obtain ⟨k, v⟩ := q
      obtain ⟨hni, _hv, hrest⟩ := nodupRecFields_head h
      intro p hp
      rcases List.mem_cons.mp hp with rfl | hp2
      · simp [lookupField]
      · have hne : p.1 ≠ k := keyNotIn_spec hni p hp2
        show (if k = p.1 then some v else lookupField rest p.1) = some p.2
        rw [if_neg (Ne.symm hne)]
        exact ih hrest p hp2

theorem nodupRec_mem {b : Bool} {fs : List (String × JsValue)}
    (h : nodupRec (.obj b fs) = true) : ∀ p ∈ fs, nodupRec p.2 = true := by
  have h2 : nodupRecFields fs = true := h
  clear h
  induction fs with
  | nil => intro p hp; simp at hp
  | cons q rest ih =>
      obtain ⟨k, v⟩ := q
      obtain ⟨_hni, hv, hrest⟩ := nodupRecFields_head h2
      intro p hp
      rcases List.mem_cons.mp hp with rfl | hp2
      · exact hv
      · exact ih hrest p hp2

theorem lookup_ddFields_notin {df : List (String × JsValue)} {k : String}
    (h : ∀ p ∈ df, p.1 ≠ k) (xf : List (String × JsValue)) :
    lookupField (ddFields xf df) k = lookupField xf k := by
  induction df generalizing xf with
  | nil => rfl
  | cons q rest ih =>
      obtain ⟨k2, dv⟩ := q
      rw [ddFields_cons]
      have hk : k ≠ k2 := fun hh => (h (k2, dv) (List.mem_cons_self _ _)) hh.symm
      rw [ih (fun p hp => h p (List.mem_cons_of_mem _ hp)), lookup_ddStep_ne _ _ _ _ hk]

theorem ddStep_self {xf : List (String × JsValue)} {k : String} {dv v : JsValue}
    (hl : lookupField xf k = some v) (hv : ddVal v dv = v) : ddStep xf k dv = xf := by
  unfold ddStep
  rw [hl]
  show replaceField xf k (ddVal v dv) = xf
  rw [hv]
  exact replaceField_self _ _ _ hl

theorem ddFields_selfpass {src base : List (String × JsValue)}
    (h : ∀ p ∈ src, lookupField base p.1 = some p.2 ∧ ddVal p.2 p.2 = p.2) :
    ddFields base src = base := by
  induction src with
  | nil => rfl
  | cons q rest ih =>
      obtain ⟨k, dv⟩ := q
      obtain ⟨hlk, hself⟩ := h (k, dv) (List.mem_cons_self _ _)
      have hlk2 : lookupField base k = some dv := hlk
      have hself2 : ddVal dv dv = dv := hself
      rw [ddFields_cons]
      rw [ddStep_self hlk2 hself2]
      exact ih (fun p hp => h p (List.mem_cons_of_mem _ hp))

theorem ddFields_repass {df : List (String × JsValue)}
    (hnd : nodupRecFields df = true)
    (h : ∀ p ∈ df, (∀ x, ddVal (ddVal x p.2) p.2 = ddVal x p.2) ∧ ddVal p.2 p.2 = p.2) :
    ∀ xf, ddFields (ddFields xf df) df = ddFields xf df := by
  induction df with
  | nil => intro xf; rfl
  | cons q rest ih =>
      obtain ⟨k, dv⟩ := q
      obtain ⟨hni, _hv, hrest⟩ := nodupRecFields_head hnd
      obtain ⟨hidem, hself⟩ := h (k, dv) (List.mem_cons_self _ _)
      have hidem2 : ∀ x, ddVal (ddVal x dv) dv = ddVal x dv := hidem
      have hself2 : ddVal dv dv = dv := hself
      intro xf
      rw [ddFields_cons, ddFields_cons]
      have hY : lookupField (ddFields (ddStep xf k dv) rest) k = lookupField (ddStep xf k dv) k :=
        lookup_ddFields_notin (fun p hp => keyNotIn_spec hni p hp) _
      rw [lookup_ddStep_eq] at hY
      have hstep : ddStep (ddFields (ddStep xf k dv) rest) k dv = ddFields (ddStep xf k dv) rest := by
        cases hxk : lookupField xf k with
        | some xv =>
            rw [hxk] at hY
            exact ddStep_self hY (hidem2 xv)
        | none =>
            rw [hxk] at hY
            exact ddStep_self hY hself2
      rw [hstep]
      exact ih hrest (fun p hp => h p (List.mem_cons_of_mem _ hp)) (ddStep xf k dv)

theorem ddVal_nonobj_right {d : JsValue} (h : isObjB d = false) (x : JsValue) :
    ddVal x d = x := by
  cases d <;> first | (cases x <;> rfl) | simp [isObjB] at h

theorem ddVal_idem_self :
    ∀ (d : JsValue), nodupRec d = true →
      (∀ x, ddVal (ddVal x d) d = ddVal x d) ∧ ddVal d d = d := by
  suffices H : ∀ (n : Nat) (d : JsValue), sizeOf d < n → nodupRec d = true →
      (∀ x, ddVal (ddVal x d) d = ddVal x d) ∧ ddVal d d = d by
    intro d hd
    exact H (sizeOf d + 1) d (Nat.lt_succ_self _) hd
  intro n
  induction n with
  | zero => intro d h; omega
  | succ n ih =>
      intro d hsz hd
      cases d with
      | obj b fs =>
          have hmemsize : ∀ p ∈ fs, sizeOf p.2 < n := by
            intro p hp
            have h1 := List.sizeOf_lt_of_mem hp
            obtain ⟨k2, v2⟩ := p
            simp only [Prod.mk.sizeOf_spec] at h1
            simp only [JsValue.obj.sizeOf_spec] at hsz
            simp only
            omega
          have hrec : ∀ p ∈ fs, (∀ x, ddVal (ddVal x p.2) p.2 = ddVal x p.2) ∧
              ddVal p.2 p.2 = p.2 :=
            fun p hp => ih p.2 (hmemsize p hp) (nodupRec_mem hd p hp)
          constructor
          · intro x
            cases x with
            | obj xb xf =>
                show JsValue.obj xb (ddFields (ddFields xf fs) fs) = .obj xb (ddFields xf fs)
                rw [ddFields_repass hd hrec xf]
            | null => rfl
            | bool v => rfl
            | num v => rfl
            | str v => rfl
          · show JsValue.obj b (ddFields fs fs) = .obj b fs
            have hlk := nodup_lookup_mem (show nodupRecFields fs = true from hd)
            rw [ddFields_selfpass (fun p hp => ⟨hlk p hp, (hrec p hp).2⟩)]
      | null => exact ⟨fun x => by cases x <;> rfl, rfl⟩
      | bool v => exact ⟨fun x => by cases x <;> rfl, rfl⟩
      | num v => exact ⟨fun x => by cases x <;> rfl, rfl⟩
      | str v => exact ⟨fun x => by cases x <;> rfl, rfl⟩

theorem ddVal_idem {d : JsValue} (hd : nodupRec d = true) (x : JsValue) :
    ddVal (ddVal x d) d = ddVal x d :=
  (ddVal_idem_self d hd).1 x

end RancherSettings

namespace RancherSettings

open JsValue

theorem lookup_ddVal (xb : Bool) {xf : List (String × JsValue)} (d : JsValue)
    {k : String} {v : JsValue} (hv : isObjB v = false) (h : lookupField xf k = some v) :
    ∃ fs2, ddVal (.obj xb xf) d = .obj xb fs2 ∧ lookupField fs2 k = some v := by
  cases d with
  | obj db df =>
      exact ⟨ddFields xf df, rfl,
        lookup_ddFields_stable v (fun dv => scalar_ddVal v hv dv) df xf k h⟩
  | null => exact ⟨xf, rfl, h⟩
  | bool b2 => exact ⟨xf, rfl, h⟩
  | num n2 => exact ⟨xf, rfl, h⟩
  | str s2 => exact ⟨xf, rfl, h⟩

theorem updateSettings_fix {yb : Bool} {yfs : List (String × JsValue)}
    (h1 : lookupField yfs "version" = some (.num 5))
    (h2 : ddVal (.obj yb yfs) defaultSettings = .obj yb yfs) :
    updateSettings (.obj yb yfs) = .ok (.obj yb yfs) := by
  have hne : yfs ≠ [] := lookupField_ne_nil h1
  unfold updateSettings
  show (do
    let keys ← Except.ok (yfs.map Prod.fst)
    if keys.length = 0 then
      .ok defaultSettings
    else do
      let settings ← migrateBody (.obj yb yfs)
      finalizeSettings settings : Except Unit JsValue) = .ok (.obj yb yfs)
  have hlen : (yfs.map Prod.fst).length ≠ 0 := by
    simpa using fun hh => hne (List.eq_nil_of_length_eq_zero hh)
  have hmig : migrateBody (.obj yb yfs) = .ok (.obj yb yfs) := by
    unfold migrateBody
    show (do
      let versionProp ← Except.ok (getOwn (.obj yb yfs) "version")
      let loadedVersion : JsValue :=
        match versionProp with
        | some v => if truthy v then v else .num 0
        | none => .num 0
      if jsLessThanNum loadedVersion CURRENT_SETTINGS_VERSION then do
        let settings ← applyUpdateTable (jsToString loadedVersion) (.obj yb yfs)
        let n1 : Int := (jsToNumber loadedVersion).getD 0 + 1
        migrationLoop (CURRENT_SETTINGS_VERSION - n1).toNat n1 settings
      else
        .ok (.obj yb yfs) : Except Unit JsValue) = .ok (.obj yb yfs)
    have hown : getOwn (.obj yb yfs) "version" = some (.num 5) := by
      show (match lookupField yfs "version" with
            | some v => some v
            | none => if yb && "version" = "length" then
                some (.num (arrayLength yfs)) else none) = some (.num 5)
      rw [h1]
    rw [hown]
    rfl
  have hfin : finalizeSettings (.obj yb yfs) = .ok (.obj yb yfs) := by
    unfold finalizeSettings
    show (do
      let settings ← jsSetMember (.obj yb yfs) "version" (.num CURRENT_SETTINGS_VERSION)
      Except.ok (ddVal settings defaultSettings) : Except Unit JsValue) = .ok (.obj yb yfs)
    have hset : jsSetMember (.obj yb yfs) "version" (.num CURRENT_SETTINGS_VERSION)
        = .ok (.obj yb yfs) := by
      show Except.ok (JsValue.obj yb (setField yfs "version" (.num 5))) = .ok (.obj yb yfs)
      rw [setField_self _ _ _ h1]
    rw [hset]
    show Except.ok (ddVal (.obj yb yfs) defaultSettings) = .ok (.obj yb yfs)
    rw [h2]
  show (if (List.map Prod.fst yfs).length = 0 then Except.ok defaultSettings
        else migrateBody (.obj yb yfs) >>= finalizeSettings) = .ok (.obj yb yfs)
  rw [if_neg hlen, hmig]
  show finalizeSettings (.obj yb yfs) = .ok (.obj yb yfs)
  exact hfin

theorem nodupRec_defaultSettings : nodupRec defaultSettings = true := by rfl

theorem finalize_fixed {s y : JsValue} (h : finalizeSettings s = .ok y) :
    updateSettings y = .ok y := by
  unfold finalizeSettings at h
  cases s with
  | obj b fs =>
      have hy : y = ddVal (.obj b (setField fs "version" (.num 5))) defaultSettings := by
        have h2 : Except.ok (ddVal (.obj b (setField fs "version" (.num 5)))
            defaultSettings) = (.ok y : Except Unit JsValue) := h
        exact (Except.ok.inj h2).symm
      obtain ⟨fs2, hdd, hlk⟩ := lookup_ddVal b defaultSettings (v := .num 5) rfl
        (lookupField_setField_eq fs "version" (.num 5))
      have hy2 : y = .obj b fs2 := by rw [hy, hdd]
      have hidem : ddVal y defaultSettings = y := by
        rw [hy]
        exact ddVal_idem nodupRec_defaultSettings _
      rw [hy2] at hidem ⊢
      exact updateSettings_fix hlk hidem
  | null => exact absurd (h : (Except.error () : Except Unit JsValue) = .ok y) (fun hh => Except.noConfusion hh)
  | bool b2 => exact absurd (h : (Except.error () : Except Unit JsValue) = .ok y) (fun hh => Except.noConfusion hh)
  | num n2 => exact absurd (h : (Except.error () : Except Unit JsValue) = .ok y) (fun hh => Except.noConfusion hh)
  | str s2 => exact absurd (h : (Except.error () : Except Unit JsValue) = .ok y) (fun hh => Except.noConfusion hh)

end RancherSettings

namespace RancherSettings

open JsValue

theorem updateSettings_ok_cases {r y : JsValue} (h : updateSettings r = .ok y) :
    y = defaultSettings ∨ ∃ s, finalizeSettings s = .ok y := by
  unfold updateSettings at h
  cases hk : jsKeys r with
  | error e =>
      rw [hk] at h
      exact absurd (h : (Except.error e : Except Unit JsValue) = .ok y) (fun hh => Except.noConfusion hh)
  | ok keys =>
      rw [hk] at h
      by_cases hl : keys.length = 0
      · left
        have h2 : (if keys.length = 0 then (Except.ok defaultSettings : Except Unit JsValue)
            else migrateBody r >>= finalizeSettings) = .ok y := h
        rw [if_pos hl] at h2
        exact (Except.ok.inj h2).symm
      · have h2 : (if keys.length = 0 then (Except.ok defaultSettings : Except Unit JsValue)
            else migrateBody r >>= finalizeSettings) = .ok y := h
        rw [if_neg hl] at h2
        cases hm : migrateBody r with
        | error e =>
            rw [hm] at h2
            exact absurd (h2 : (Except.error e : Except Unit JsValue) = .ok y) (fun hh => Except.noConfusion hh)
        | ok s =>
            rw [hm] at h2
            exact Or.inr ⟨s, h2⟩

theorem finalize_version {s y : JsValue} (h : finalizeSettings s = .ok y) :
    getOwn y "version" = some (.num 5) := by
  unfold finalizeSettings at h
  cases s with
  | obj b fs =>
      have hy : y = ddVal (.obj b (setField fs "version" (.num 5))) defaultSettings := by
        have h2 : Except.ok (ddVal (.obj b (setField fs "version" (.num 5)))
            defaultSettings) = (.ok y : Except Unit JsValue) := h
        exact (Except.ok.inj h2).symm
      obtain ⟨fs2, hdd, hlk⟩ := lookup_ddVal b defaultSettings (v := .num 5) rfl
        (lookupField_setField_eq fs "version" (.num 5))
      rw [hy, hdd]
      show (match lookupField fs2 "version" with
            | some v => some v
            | none => if b && "version" = "length" then
                some (.num (arrayLength fs2)) else none) = some (.num 5)
      rw [hlk]
  | null => exact absurd (h : (Except.error () : Except Unit JsValue) = .ok y) (fun hh => Except.noConfusion hh)
  | bool b2 => exact absurd (h : (Except.error () : Except Unit JsValue) = .ok y) (fun hh => Except.noConfusion hh)
  | num n2 => exact absurd (h : (Except.error () : Except Unit JsValue) = .ok y) (fun hh => Except.noConfusion hh)
  | str s2 => exact absurd (h : (Except.error () : Except Unit JsValue) = .ok y) (fun hh => Except.noConfusion hh)

end RancherSettings

namespace RancherSettings

open JsValue

/-- Claim C3: migration is idempotent — for every raw settings object `r`,
running `updateSettings` (the migration chain followed by the deep merge over
the compiled-in defaults) on its own output returns that output unchanged:
if `updateSettings r` succeeds with `y` then `updateSettings y` succeeds with
`y` itself. -/
theorem claimC3_migration_idempotent (r y : JsValue) (h : updateSettings r = .ok y) :
    updateSettings y = .ok y := by
  rcases updateSettings_ok_cases h with rfl | ⟨s, hs⟩
  · rfl
  · exact finalize_fixed hs

/-- Witness for C3 at a concrete input: a version-5 settings object with one
extra flag migrates to its defaults-merged form, and migrating that output
again returns it unchanged. -/
theorem claimC3_migration_idempotent_witness :
    updateSettings (ddVal (.obj false [("version", .num 5), ("autoStart", .bool true)])
        defaultSettings)
      = .ok (ddVal (.obj false [("version", .num 5), ("autoStart", .bool true)])
        defaultSettings) :=
  claimC3_migration_idempotent
    (.obj false [("version", .num 5), ("autoStart", .bool true)])
    (ddVal (.obj false [("version", .num 5), ("autoStart", .bool true)]) defaultSettings)
    (by rfl)

/-- Counterexample to C7 as stated: the non-empty raw settings object
`{version: 4, autoStart: true}` has stored version `4 < 5`, yet migration
does *not* complete without error — `updateTable[4]` reads
`settings.kubernetes.suppressSudo` and throws a `TypeError` because
`settings.kubernetes` is `undefined`. -/
theorem claimC7_counterexample :
    getOwn (.obj false [("version", .num 4), ("autoStart", .bool true)]) "version"
        = some (.num 4)
    ∧ updateSettings (.obj false [("version", .num 4), ("autoStart", .bool true)])
        = .error () :=
  ⟨rfl, rfl⟩

/-- Claim C7 (amended): for every non-empty raw settings object whose stored
version compares below `CURRENT_SETTINGS_VERSION` and *on which the migration
chain completes without error*, the result carries
`version == CURRENT_SETTINGS_VERSION`. -/
theorem claimC7_migration_monotonic (b : Bool) (fs : List (String × JsValue)) (y : JsValue)
    (hne : fs ≠ [])
    (hv : jsLessThanNum (match getOwn (.obj b fs) "version" with
            | some v => if truthy v then v else .num 0
            | none => .num 0) CURRENT_SETTINGS_VERSION = true)
    (h : updateSettings (.obj b fs) = .ok y) :
    getOwn y "version" = some (.num CURRENT_SETTINGS_VERSION) := by
  rcases updateSettings_ok_cases h with rfl | ⟨s, hs⟩
  · rfl
  · exact finalize_version hs

/-- Witness for C7: a minimal version-4 settings object (with the
`kubernetes.experimental` and `containerEngine` subtrees migration step 4
dereferences) migrates successfully and ends at version 5. -/
theorem claimC7_migration_monotonic_witness :
    ∃ y, updateSettings (.obj false [("version", .num 4),
        ("kubernetes", .obj false [("experimental", .obj false [])]),
        ("containerEngine", .obj false [])]) = .ok y ∧
      getOwn y "version" = some (.num CURRENT_SETTINGS_VERSION) := by
  refine ⟨_, rfl, ?_⟩
  exact claimC7_migration_monotonic false
    [("version", .num 4),
     ("kubernetes", .obj false [("experimental", .obj false [])]),
     ("containerEngine", .obj false [])] _ (by simp) (by rfl) rfl

end RancherSettings

namespace RancherSettings

open JsValue

/-- Counterexample to C2 as stated: on `win32`, a registry read failure while
reading the `Locked` profile subtree (the locked artifact exists but its data
cannot be read/parsed) is caught by the `try/catch` around the hive loop and
only logged — `readDeploymentProfiles` returns empty profiles instead of
raising. -/
theorem claimC2_counterexample :
    readDeploymentProfiles .win32
      { reg := { hklm := some { getValue := fun path _name =>
                   if path.head? = some "Locked" then .error () else .ok none },
                 hkcu := none },
        files := { system := { defaultsFile := .missing, lockedFile := .missing },
                   user := { defaultsFile := .missing, lockedFile := .missing } } }
      = .ok (.obj false [], .obj false []) := rfl

/-- Claim C2 (amended): on `linux` and `darwin`, when the system root's
locked artifact exists but cannot be read/parsed, `readDeploymentProfiles`
propagates the error to its caller (the failure is not swallowed). -/
theorem claimC2_locked_parse_error_raises (p : Platform) (env : DeployEnv)
    (hp : p = .linux ∨ p = .darwin)
    (hl : env.files.system.lockedFile = .unparsable) :
    readDeploymentProfiles p env = .error () := by
  have hrf : readProfileFiles env.files.system = .error () := by
    unfold readProfileFiles
    rw [hl]
  have hfl : filesLoop env.files = .error () := by
    unfold filesLoop
    rw [hrf]
    rfl
  rcases hp with rfl | rfl <;> simp only [readDeploymentProfiles] <;> rw [hfl] <;> rfl

/-- Witness for C2 (amended) at a concrete input: an unparsable locked file
in the system profile directory on linux. -/
theorem claimC2_locked_parse_error_raises_witness :
    readDeploymentProfiles .linux
      { reg := { hklm := none, hkcu := none },
        files := { system := { defaultsFile := .missing, lockedFile := .unparsable },
                   user := { defaultsFile := .missing, lockedFile := .missing } } }
      = .error () :=
  claimC2_locked_parse_error_raises .linux _ (Or.inl rfl) rfl

/-- Counterexample to C4 as stated: with the argument list `["abc"]` nothing
is consumed as a recognized override (the settings object and the transient
store are returned untouched), yet `save` runs and `_isFirstRun` is cleared,
because the source tests `lim > 0` — the raw argument count — rather than
whether anything was consumed. -/
theorem claimC4_counterexample :
    updateFromCommandLine defaultSettings ["abc"]
      = .ok ⟨defaultSettings, none, true, true⟩ := rfl

/-- Claim C4 (amended): on every normal return, `updateFromCommandLine`
persists the settings and clears the first-run flag *iff the argument list is
non-empty*, regardless of whether any token was recognized. -/
theorem claimC4_save_iff_args_nonempty (cfg : JsValue) (args : List String)
    (res : CLIResult) (h : updateFromCommandLine cfg args = .ok res) :
    (res.saved = true ∧ res.firstRunCleared = true) ↔ args ≠ [] := by
  unfold updateFromCommandLine at h
  cases hp : processArgs cfg none true args with
  | error e =>
      rw [hp] at h
      exact absurd (h : (Except.error e : Except Unit CLIResult) = .ok res) (fun hh => Except.noConfusion hh)
  | ok r =>
      rw [hp] at h
      cases args with
      | nil =>
          have h2 : (Except.ok (⟨r.1, r.2, false, false⟩ : CLIResult) :
              Except Unit CLIResult) = .ok res := h
          cases Except.ok.inj h2
          simp
      | cons a rest =>
          have h2 : (if (a :: rest).length > 0 then
              (Except.ok (⟨r.1, r.2, true, true⟩ : CLIResult) : Except Unit CLIResult)
              else .ok ⟨r.1, r.2, false, false⟩) = .ok res := h
          rw [if_pos (by simp : (a :: rest).length > 0)] at h2
          cases Except.ok.inj h2
          simp

/-- Witness for C4 (amended) at a concrete input. -/
theorem claimC4_save_iff_args_nonempty_witness :
    (((⟨defaultSettings, none, true, true⟩ : CLIResult).saved = true ∧
      (⟨defaultSettings, none, true, true⟩ : CLIResult).firstRunCleared = true) ↔
      (["abc"] ≠ ([] : List String))) :=
  claimC4_save_iff_args_nonempty defaultSettings ["abc"]
    ⟨defaultSettings, none, true, true⟩ rfl

theorem walkNode_empty (ps : List String) :
    walkNode (.obj false []) ps = .ok (.obj false []) := by
  induction ps with
  | nil => rfl
  | cons f rest ih =>
      show walkNode (.obj false []) rest = .ok (.obj false [])
      exact ih

theorem walkNode_step_obj (b : Bool) (fs : List (String × JsValue)) (p0 : String)
    (rest : List String) :
    walkNode (.obj b fs) (p0 :: rest) =
      walkNode (match getOwn (.obj b fs) p0 with
                | some w => if truthy w then w else .obj false []
                | none => .obj false []) rest := rfl

/-- Claim C10: for every settings object and dotted accessor whose
intermediate components all fail to resolve to truthy members of the object
(absent or falsy), `getUpdatableNode` returns `null` instead of raising: the
walk substitutes detached empty objects and the final `in` test fails.  The
model is pure, so the settings object is trivially unmodified. -/
theorem claimC10_missing_intermediates_null (b : Bool) (fs : List (String × JsValue))
    (inter : List String) (final : String)
    (hne : inter ≠ [])
    (hmiss : ∀ p ∈ inter, truthyO (getOwn (.obj b fs) p) = false) :
    getUpdatableNodeParts (.obj b fs) (inter ++ [final]) = .ok none := by
  cases inter with
  | nil => exact absurd rfl hne
  | cons p0 restI =>
      unfold getUpdatableNodeParts
      have hlast : ((p0 :: restI) ++ [final]).getLast? = some final :=
        List.getLast?_concat _
      have hdrop : ((p0 :: restI) ++ [final]).dropLast = p0 :: restI :=
        List.dropLast_concat
      simp only [List.cons_append] at hlast hdrop ⊢
      rw [hlast, hdrop]
      have h0 := hmiss p0 (List.mem_cons_self _ _)
      have hw : walkNode (.obj b fs) (p0 :: restI) = .ok (.obj false []) := by
        rw [walkNode_step_obj]
        cases hg : getOwn (.obj b fs) p0 with
        | some w =>
            have hwf : truthy w = false := by simpa [truthyO, hg] using h0
            show walkNode (if truthy w = true then w else .obj false []) restI
              = .ok (.obj false [])
            rw [hwf]
            exact walkNode_empty restI
        | none =>
            exact walkNode_empty restI
      rw [hw]
      rfl

/-- Witness for C10 at a concrete input: the accessor `nosuch.leaf` over the
default settings. -/
theorem claimC10_missing_intermediates_null_witness :
    getUpdatableNodeParts defaultSettings (["nosuch"] ++ ["leaf"]) = .ok none :=
  claimC10_missing_intermediates_null false _ ["nosuch"] "leaf"
    (by simp) (by intro p hp; simp at hp; subst hp; rfl)

end RancherSettings

namespace RancherSettings

open JsValue

theorem loadFromDisk_parsed_eq {env : LoadEnv} (st : SettingsState) {v : JsValue}
    (henv : env.settingsFile = .parsed v) :
    loadFromDisk env st = loadFromDiskParsed v st := by
  unfold loadFromDisk
  rw [henv]

theorem loadFromDiskParsed_state {st : SettingsState} {v cfg : JsValue}
    {st2 : SettingsState} (h : loadFromDiskParsed v st = .ok (cfg, st2)) :
    st2.isFirstRun = st.isFirstRun := by
  unfold loadFromDiskParsed at h
  split at h
  · exact absurd h (fun hh => Except.noConfusion hh)
  · split at h
    · exact absurd h (fun hh => Except.noConfusion hh)
    · split at h
      · exact absurd h (fun hh => Except.noConfusion hh)
      · split at h
        · split at h
          · simp only [Except.ok.injEq, Prod.mk.injEq] at h
            obtain ⟨h1, h2⟩ := h
            subst h2
            rfl
          · simp only [Except.ok.injEq, Prod.mk.injEq] at h
            obtain ⟨h1, h2⟩ := h
            subst h2
            rfl
        · split at h
          · exact absurd h (fun hh => Except.noConfusion hh)
          · split at h
            · exact absurd h (fun hh => Except.noConfusion hh)
            · simp only [Except.ok.injEq, Prod.mk.injEq] at h
              obtain ⟨h1, h2⟩ := h
              subst h2
              rfl

theorem loadFromDiskParsed_not_enoent {st : SettingsState} {v : JsValue} :
    loadFromDiskParsed v st ≠ .error .enoent := by
  intro h
  unfold loadFromDiskParsed at h
  split at h
  · simp at h
  · split at h
    · simp at h
    · split at h
      · simp at h
      · split at h
        · split at h
          · simp at h
          · simp at h
        · split at h
          · simp at h
          · split at h
            · simp at h
            · simp at h

/-- Claim C9: a settings file that exists but fails to decode makes `load`
save a copy of the compiled-in defaults and return them (version
`CURRENT_SETTINGS_VERSION`) without raising, leaving the first-run flag
false; and `firstRunDialogNeeded()` reports true after a fresh `load` exactly
when the settings file was absent — never because it merely failed to
decode. -/
theorem claimC9_corrupt_file_fresh_defaults (env : LoadEnv) (st : SettingsState)
    (hc : st.cache = none) (hf : st.isFirstRun = false) :
    (env.settingsFile = .unparsable →
       (load env st).1 = defaultSettings ∧
       getOwn (load env st).1 "version" = some (.num CURRENT_SETTINGS_VERSION) ∧
       (load env st).2.savedFile = some defaultSettings ∧
       firstRunDialogNeeded (load env st).2 = false)
    ∧ (firstRunDialogNeeded (load env st).2 = true ↔ env.settingsFile = .missing) := by
  obtain ⟨cache, fr, sf⟩ := st
  simp only at hc hf
  subst hc
  subst hf
  cases henv : env.settingsFile with
  | missing =>
      constructor
      · intro h
        exact absurd h (fun hh => FileOutcome.noConfusion hh)
      · unfold load loadFromDisk
        rw [henv]
        simp [firstRunDialogNeeded]
  | unparsable =>
      unfold load loadFromDisk
      rw [henv]
      constructor
      · intro _
        exact ⟨rfl, rfl, rfl, rfl⟩
      · simp [firstRunDialogNeeded, save]
  | parsed v =>
      constructor
      · intro h
        exact absurd h (fun hh => FileOutcome.noConfusion hh)
      · have hle := loadFromDisk_parsed_eq
          ({ cache := none, isFirstRun := false, savedFile := sf }) henv
        cases hld : loadFromDiskParsed v { cache := none, isFirstRun := false, savedFile := sf } with
        | ok p =>
            obtain ⟨cfg, st2⟩ := p
            have hfr := loadFromDiskParsed_state hld
            rw [hld] at hle
            simp [load, hle, firstRunDialogNeeded, hfr]
        | error e =>
            cases e with
            | enoent => exact absurd hld loadFromDiskParsed_not_enoent
            | typeError =>
                rw [hld] at hle
                simp [load, hle, firstRunDialogNeeded]

/-- Witness for C9 at a concrete input (corrupt settings file, fresh module
state): the first-run report is `true` iff the file outcome was `missing`,
which it was not. -/
theorem claimC9_corrupt_file_fresh_defaults_witness :
    (firstRunDialogNeeded (load
        { settingsFile := .unparsable, platform := .linux, quarterMemGB := 4,
          appImage := true, appVersionDev := false }
        { cache := none, isFirstRun := false, savedFile := none }).2 = true
      ↔ FileOutcome.unparsable = FileOutcome.missing) :=
  (claimC9_corrupt_file_fresh_defaults
    { settingsFile := .unparsable, platform := .linux, quarterMemGB := 4,
      appImage := true, appVersionDev := false }
    { cache := none, isFirstRun := false, savedFile := none } rfl rfl).2

end RancherSettings

namespace RancherSettings

open JsValue

theorem noNulls_member_lookup {fs : List (String × JsValue)} {k : String} {v : JsValue}
    (hn : noNullsFields fs = true) (hl : lookupField fs k = some v) : noNulls v = true := by
  induction fs with
  | nil => exact absurd hl (by simp [lookupField])
  | cons q rest ih =>
      obtain ⟨k2, v2⟩ := q
      have hn2 : noNulls v2 = true ∧ noNullsFields rest = true := by
        simpa [noNullsFields, Bool.and_eq_true] using hn
      by_cases hk : k2 = k
      · have : some v2 = some v := by simpa [lookupField, hk] using hl
        cases this
        exact hn2.1
      · exact ih hn2.2 (by simpa [lookupField, hk] using hl)

theorem getOwn_noNulls {s : JsValue} {k : String} {sv : JsValue}
    (hs : noNulls s = true) (hg : getOwn s k = some sv) : noNulls sv = true := by
  cases s with
  | obj b fs =>
      have hn : noNullsFields fs = true := hs
      cases hl : lookupField fs k with
      | some v =>
          have h2 : some v = some sv := by simpa [getOwn, hl] using hg
          cases h2
          exact noNulls_member_lookup hn hl
      | none =>
          simp only [getOwn, hl] at hg
          split at hg
          · cases hg
            rfl
          · exact absurd hg (by simp)
  | str st =>
      simp only [getOwn] at hg
      split at hg
      · cases hg
        rfl
      · split at hg
        · split at hg
          · cases hg
            rfl
          · exact absurd hg (by simp)
        · exact absurd hg (by simp)
  | null => exact absurd hg (by simp [getOwn])
  | bool b2 => exact absurd hg (by simp [getOwn])
  | num n2 => exact absurd hg (by simp [getOwn])

theorem typeof_object_obj {v : JsValue} (h : jsTypeof v = "object")
    (hn : noNulls v = true) : ∃ b fs, v = .obj b fs := by
  cases v with
  | obj b fs => exact ⟨b, fs, rfl⟩
  | null => exact absurd hn (by simp [noNulls])
  | bool b2 => exact absurd h (by simp [jsTypeof])
  | num n2 => exact absurd h (by simp [jsTypeof])
  | str s2 => exact absurd h (by simp [jsTypeof])

end RancherSettings

namespace RancherSettings

open JsValue

theorem exceptOkBind {α β γ : Type} (a : α) (f : α → Except γ β) :
    (Except.ok a >>= f : Except γ β) = f a := rfl

theorem vpf_skip {k : String} {v : JsValue} {rest : List (String × JsValue)}
    {sb : Bool} {sfs : List (String × JsValue)}
    (hg : getOwn (.obj sb sfs) k = none) :
    validateProfileFields ((k, v) :: rest) (.obj sb sfs)
      = validateProfileFields rest (.obj sb sfs) := by
  simp only [validateProfileFields, jsIn, exceptOkBind]
  split
  · rename_i sv heq
    simp [hg] at heq
  · rfl

theorem vpf_drop {k : String} {v : JsValue} {rest : List (String × JsValue)}
    {sb : Bool} {sfs : List (String × JsValue)} {sv : JsValue}
    (hg : getOwn (.obj sb sfs) k = some sv)
    (ht : ¬ jsTypeof v = jsTypeof sv) :
    validateProfileFields ((k, v) :: rest) (.obj sb sfs)
      = validateProfileFields rest (.obj sb sfs) := by
  simp only [validateProfileFields, jsIn, exceptOkBind]
  split
  · rename_i sv2 heq
    rw [hg] at heq
    cases heq
    rw [if_neg ht]
  · rename_i heq
    simp [hg] at heq

theorem vpf_keep_scalar {k : String} {v : JsValue} {rest : List (String × JsValue)}
    {sb : Bool} {sfs : List (String × JsValue)} {sv : JsValue}
    (hg : getOwn (.obj sb sfs) k = some sv)
    (ht : jsTypeof v = jsTypeof sv)
    (ho : ¬ jsTypeof v = "object") :
    validateProfileFields ((k, v) :: rest) (.obj sb sfs)
      = (do
          let rest2 ← validateProfileFields rest (.obj sb sfs)
          .ok ((k, v) :: rest2)) := by
  simp only [validateProfileFields, jsIn, exceptOkBind]
  split
  · rename_i sv2 heq
    rw [hg] at heq
    cases heq
    rw [if_pos ht, if_neg ho]
  · rename_i heq
    simp [hg] at heq

theorem vpf_keep_array {k : String} {v : JsValue} {rest : List (String × JsValue)}
    {sb : Bool} {sfs : List (String × JsValue)} {sv : JsValue}
    (hg : getOwn (.obj sb sfs) k = some sv)
    (ht : jsTypeof v = jsTypeof sv)
    (ho : jsTypeof v = "object")
    (ha : isArrayB v = true) :
    validateProfileFields ((k, v) :: rest) (.obj sb sfs)
      = (do
          let rest2 ← validateProfileFields rest (.obj sb sfs)
          .ok ((k, v) :: rest2)) := by
  simp only [validateProfileFields, jsIn, exceptOkBind]
  split
  · rename_i sv2 heq
    rw [hg] at heq
    cases heq
    rw [if_pos ht, if_pos ho, if_neg (by simp [isArrayB]), if_neg (by simp [ha])]
  · rename_i heq
    simp [hg] at heq

theorem vpf_recurse {k : String} {v : JsValue} {rest : List (String × JsValue)}
    {sb : Bool} {sfs : List (String × JsValue)} {sv : JsValue}
    (hg : getOwn (.obj sb sfs) k = some sv)
    (ht : jsTypeof v = jsTypeof sv)
    (ho : jsTypeof v = "object")
    (ha : isArrayB v = false) :
    validateProfileFields ((k, v) :: rest) (.obj sb sfs)
      = (do
          let v2 ← validateProfileValue v sv
          let rest2 ← validateProfileFields rest (.obj sb sfs)
          .ok ((k, v2) :: rest2)) := by
  simp only [validateProfileFields, jsIn, exceptOkBind]
  split
  · rename_i sv2 heq
    rw [hg] at heq
    cases heq
    rw [if_pos ht, if_pos ho, if_neg (by simp [isArrayB]), if_pos (by simp [ha])]
  · rename_i heq
    simp [hg] at heq

end RancherSettings

namespace RancherSettings

open JsValue

theorem isArray_obj_true {v : JsValue} (h : isArrayB v = true) :
    ∃ fs, v = .obj true fs := by
  cases v with
  | obj b fs =>
      cases b with
      | true => exact ⟨fs, rfl⟩
      | false => exact absurd h (by simp [isArrayB])
  | null => exact absurd h (by simp [isArrayB])
  | bool b2 => exact absurd h (by simp [isArrayB])
  | num n2 => exact absurd h (by simp [isArrayB])
  | str s2 => exact absurd h (by simp [isArrayB])

theorem conformsB_non_plain {v : JsValue} (s : JsValue)
    (h : (∃ fs, v = .obj true fs) ∨ ¬ jsTypeof v = "object") :
    conformsB v s = true := by
  cases v with
  | obj b fs =>
      cases b with
      | true => rfl
      | false =>
          rcases h with ⟨fs2, hfs⟩ | h2
          · exact absurd hfs (by simp)
          · exact absurd rfl h2
  | null => rfl
  | bool b2 => rfl
  | num n2 => rfl
  | str s2 => rfl

theorem conformsFields_cons {k : String} {v : JsValue} {rest : List (String × JsValue)}
    {s : JsValue} {sv : JsValue} (hg : getOwn s k = some sv)
    (ht : jsTypeof v = jsTypeof sv) (hc : conformsB v sv = true)
    (hrest : conformsFields rest s = true) :
    conformsFields ((k, v) :: rest) s = true := by
  simp only [conformsFields]
  rw [hg]
  show ((jsTypeof v == jsTypeof sv && conformsB v sv) && conformsFields rest s) = true
  rw [hc, hrest, ht]
  simp

theorem validateFields_conforms :
    ∀ (n : Nat) (fs : List (String × JsValue)) (sb : Bool) (sfs : List (String × JsValue)),
      sizeOf fs < n → noNullsFields fs = true → noNulls (.obj sb sfs) = true →
      ∃ rs, validateProfileFields fs (.obj sb sfs) = .ok rs ∧
        conformsFields rs (.obj sb sfs) = true := by
  intro n
  induction n with
  | zero => intro fs _ _ h _ _; omega
  | succ n ih =>
      intro fs sb sfs hsz hnf hns
      cases fs with
      | nil => exact ⟨[], rfl, rfl⟩
      | cons q rest =>
          obtain ⟨k, v⟩ := q
          have hnv : noNulls v = true ∧ noNullsFields rest = true := by
            simpa [noNullsFields, Bool.and_eq_true] using hnf
          have hszrest : sizeOf rest < n := by
            simp only [List.cons.sizeOf_spec, Prod.mk.sizeOf_spec] at hsz
            omega
          obtain ⟨rs', hval', hconf'⟩ := ih rest sb sfs hszrest hnv.2 hns
          cases hg : getOwn (.obj sb sfs) k with
          | none => exact ⟨rs', (vpf_skip hg).trans hval', hconf'⟩
          | some sv =>
              by_cases ht : jsTypeof v = jsTypeof sv
              · by_cases ho : jsTypeof v = "object"
                · by_cases ha : isArrayB v = true
                  · refine ⟨(k, v) :: rs', ?_, ?_⟩
                    · rw [vpf_keep_array hg ht ho ha, hval']
                      rfl
                    · exact conformsFields_cons hg ht
                        (conformsB_non_plain sv (Or.inl (isArray_obj_true ha))) hconf'
                  · have hnsv : noNulls sv = true := getOwn_noNulls hns hg
                    obtain ⟨vb, vfs, hveq⟩ := typeof_object_obj ho hnv.1
                    have hvb : vb = false := by
                      rw [hveq] at ha
                      simpa [isArrayB] using ha
                    rw [hvb] at hveq
                    obtain ⟨svb, svfs, hsveq⟩ := typeof_object_obj (ht ▸ ho) hnsv
                    have hszv : sizeOf vfs < n := by
                      rw [hveq] at hsz
                      simp only [List.cons.sizeOf_spec, Prod.mk.sizeOf_spec,
                        JsValue.obj.sizeOf_spec] at hsz
                      omega
                    have hnvfs : noNullsFields vfs = true := by
                      rw [hveq] at hnv
                      exact hnv.1
                    have hnsv2 : noNulls (.obj svb svfs) = true := hsveq ▸ hnsv
                    obtain ⟨rs2, hval2, hconf2⟩ := ih vfs svb svfs hszv hnvfs hnsv2
                    have hvv : validateProfileValue v sv = .ok (.obj false rs2) := by
                      rw [hveq, hsveq]
                      simp only [validateProfileValue]
                      rw [hval2]
                      rfl
                    refine ⟨(k, .obj false rs2) :: rs', ?_, ?_⟩
                    · rw [vpf_recurse hg ht ho (by simp [ha]), hvv, exceptOkBind, hval']
                      rfl
                    · refine conformsFields_cons hg ?_ ?_ hconf'
                      · show ("object" : String) = jsTypeof sv
                        rw [← ho]
                        exact ht
                      · rw [hsveq]
                        show conformsFields rs2 (.obj svb svfs) = true
                        exact hconf2
                · refine ⟨(k, v) :: rs', ?_, ?_⟩
                  · rw [vpf_keep_scalar hg ht ho, hval']
                    rfl
                  · exact conformsFields_cons hg ht
                      (conformsB_non_plain sv (Or.inr ho)) hconf'
              · exact ⟨rs', (vpf_drop hg ht).trans hval', hconf'⟩

end RancherSettings

namespace RancherSettings

open JsValue

/-- Counterexample to C6 as stated: both `{kubernetes: null}` and the schema
`defaultSettings` are objects, yet `validateDeploymentProfile` raises — the
`null` value has `typeof` "object" and is not an array, so the validator
recurses into it and `Object.keys(null)` throws a `TypeError`. -/
theorem claimC6_counterexample :
    isObjB (.obj false [("kubernetes", JsValue.null)]) = true
    ∧ isObjB defaultSettings = true
    ∧ validateProfileValue (.obj false [("kubernetes", JsValue.null)]) defaultSettings
        = .error () :=
  ⟨rfl, rfl, rfl⟩

/-- Claim C6 (amended): for objects `p` and `s` containing no `null` values,
`validateDeploymentProfile(p, s)` never raises, and its result conforms to
the schema in the sense the validator as written guarantees: walking through
plain-object values, every retained key is a property of the corresponding
schema position with matching runtime `typeof`; array values are retained
whole and their contents are not inspected (a consequence of the dead
array-mismatch branch, see C5). -/
theorem claimC6_validate_filters (p s : JsValue)
    (hp : isObjB p = true) (hs : isObjB s = true)
    (hnp : noNulls p = true) (hns : noNulls s = true) :
    ∃ r, validateProfileValue p s = .ok r ∧ conformsB r s = true := by
  cases p with
  | obj b fs =>
      cases s with
      | obj sb sfs =>
          obtain ⟨rs, hval, hconf⟩ :=
            validateFields_conforms (sizeOf fs + 1) fs sb sfs (Nat.lt_succ_self _) hnp hns
          refine ⟨.obj b rs, ?_, ?_⟩
          · simp only [validateProfileValue]
            rw [hval]
            rfl
          · cases b with
            | false => exact hconf
            | true => rfl
      | null => exact absurd hs (by simp [isObjB])
      | bool b2 => exact absurd hs (by simp [isObjB])
      | num n2 => exact absurd hs (by simp [isObjB])
      | str s2 => exact absurd hs (by simp [isObjB])
  | null => exact absurd hp (by simp [isObjB])
  | bool b2 => exact absurd hp (by simp [isObjB])
  | num n2 => exact absurd hp (by simp [isObjB])
  | str s2 => exact absurd hp (by simp [isObjB])

/-- Witness for C6 (amended) at a concrete input: a profile with one
wrongly-typed field and one valid subtree against the default-settings
schema. -/
theorem claimC6_validate_filters_witness :
    ∃ r, validateProfileValue
        (.obj false [("autoStart", .str "yes"),
                     ("window", .obj false [("quitOnClose", .bool true)])])
        defaultSettings = .ok r ∧ conformsB r defaultSettings = true :=
  claimC6_validate_filters
    (.obj false [("autoStart", .str "yes"),
                 ("window", .obj false [("quitOnClose", .bool true)])])
    defaultSettings rfl rfl rfl rfl

/-- Claim C1 (failing evaluation): on linux, with the system root supplying
only a locked profile (`{autoStart: true}`) and the user root supplying only
a defaults profile, `readDeploymentProfiles` returns *empty* defaults and
locked objects — the inner `const profiles` in the directory loop shadows the
outer result object, so the file contents are read (the loop even breaks on
the system root) but never returned, contradicting the function's own doc
comment. -/
theorem claimC1_linux_profiles_dropped :
    readDeploymentProfiles .linux
      { reg := { hklm := none, hkcu := none },
        files := { system := { defaultsFile := .missing,
                               lockedFile := .parsed (.obj false [("autoStart", .bool true)]) },
                   user := { defaultsFile := .parsed (.obj false [("autoStart", .bool false)]),
                             lockedFile := .missing } } }
      = .ok (.obj false [], .obj false []) := rfl

/-- Claim C5 (failing evaluation): the profile `{WSL: ["x"]}` pairs an array
with the plain-object schema value `defaultSettings.WSL` (exactly one side is
an array), but the key is *retained unchanged* rather than deleted: the
mismatch test `Array.isArray(profile[key] !== Array.isArray(schema[key]))`
applies `Array.isArray` to a boolean, so it is constantly false and the
deletion branch is dead code. -/
theorem claimC5_array_mismatch_not_deleted :
    validateProfileValue (.obj false [("WSL", jarr [.str "x"])]) defaultSettings
      = .ok (.obj false [("WSL", jarr [.str "x"])]) := rfl

/-- Claim C8: command-line type safety on the loaded (default) settings:
`--virtualMachine.memoryInGB=abc` raises a user-input error
(`JSON.parse('abc')` fails for the numeric field);
`--virtualMachine.memoryInGB=8` sets the field to the number 8 (and saves);
`--containerEngine.name.foo=x` raises (the walk reaches the string leaf
`'containerd'` and the `in` operator throws on a primitive). -/
theorem claimC8_command_line_type_safety :
    updateFromCommandLine defaultSettings ["--virtualMachine.memoryInGB=abc"] = .error ()
    ∧ updateFromCommandLine defaultSettings ["--virtualMachine.memoryInGB=8"]
        = .ok ⟨setIn defaultSettings ["virtualMachine"] "memoryInGB" (.num 8),
               none, true, true⟩
    ∧ getOwn (setIn defaultSettings ["virtualMachine"] "memoryInGB" (.num 8))
        "virtualMachine" = some (.obj false [
          ("memoryInGB", .num 8), ("numberCPUs", .num 2), ("hostResolver", .bool true)])
    ∧ updateFromCommandLine defaultSettings ["--containerEngine.name.foo=x"] = .error () :=
  ⟨rfl, rfl, rfl, rfl⟩

end RancherSettings
